import Mathlib

/-!
Verification development for the household decision engine of the
WB-India overlapping-generations codebase.

The model covers the two source files:

* `Code/Chap5/households.py` : stitched marginal utility and disutility
  (`MU_c_stitch`, `MDU_n_stitch`), the budget mapping `get_cons`, the
  Euler residual functions `get_n_errors` / `get_b_errors`, the lifetime
  system assembler `bn_errors`, the forward-simulation engine
  `get_cnb_vecs` and the shooting closure `c1_bSp1err`.
* `Code/Chap4/Ch4SS_inclass.py` : the steady-state driver (`get_c`,
  `MU_c`, `MDU_n`, `get_n_errors`, `get_b_errors`, `euler_system` and
  the reporting lines after the outer root solve).

Python floats are modelled as real numbers; numpy `**` is `Real.rpow`;
numpy 1-D arrays are `List ℝ`; elementwise broadcast arithmetic is
`zipWith`-style zipping.  The scipy root finder that `get_cnb_vecs`
invokes per age is an opaque parameter `solver : NArgs → RootResult`
returning a solution value `x` together with the convergence flag
`success` (mirroring `result_n.x` / `result_n.success`).  Calls that
unpack Python variadic `*args` tuples are modelled with the small
dynamic-value type `PyArg`, so that an arity mismatch at a call site
surfaces as an `Except.error`, mirroring a raised `ValueError`.
-/

noncomputable section

/-! ## List helpers (elementwise numpy arithmetic) -/

/-- Three-list elementwise zip, used for broadcast expressions over
three equal-length arrays. -/
def zip3R (f : ℝ → ℝ → ℝ → ℝ) : List ℝ → List ℝ → List ℝ → List ℝ
  | a :: as, b :: bs, c :: cs => f a b c :: zip3R f as bs cs
  | _, _, _ => []

/-- Five-list elementwise zip. -/
def zip5R (f : ℝ → ℝ → ℝ → ℝ → ℝ → ℝ) :
    List ℝ → List ℝ → List ℝ → List ℝ → List ℝ → List ℝ
  | a :: as, b :: bs, c :: cs, d :: ds, e :: es =>
      f a b c d e :: zip5R f as bs cs ds es
  | _, _, _, _, _ => []

/-- Six-list elementwise zip. -/
def zip6R (f : ℝ → ℝ → ℝ → ℝ → ℝ → ℝ → ℝ) :
    List ℝ → List ℝ → List ℝ → List ℝ → List ℝ → List ℝ → List ℝ
  | a :: as, b :: bs, c :: cs, d :: ds, e :: es, g :: gs =>
      f a b c d e g :: zip6R f as bs cs ds es gs
  | _, _, _, _, _, _ => []

/-! ## Stitched utility primitives (households.py lines 71-182, 185-386) -/

/-- Consumption stitching breakpoint (households.py line 115). -/
def eps_c : ℝ := 0.0001

/-- Labor stitching lower breakpoint (households.py line 255). -/
def eps_low : ℝ := 0.000001

/-- Labor stitching upper breakpoint (households.py line 256). -/
def eps_high (l_tilde : ℝ) : ℝ := l_tilde - 0.000001

/-- Slope coefficient of the quadratic continuation of CRRA marginal
utility (households.py lines 120, 130). -/
def muB2 (sigma : ℝ) : ℝ := -sigma * eps_c ^ (-sigma - 1) / 2

/-- Intercept coefficient of the quadratic continuation of CRRA marginal
utility (households.py lines 121, 131). -/
def muB1 (sigma : ℝ) : ℝ := eps_c ^ (-sigma) - 2 * muB2 sigma * eps_c

/-- `MU_c_stitch`, scalar input path (households.py lines 116-124). -/
def MU_c_stitch (c sigma : ℝ) : ℝ :=
  if c < eps_c then 2 * muB2 sigma * c + muB1 sigma else c ^ (-sigma)

/-- `MU_c_stitch`, 1-D vector input path (households.py lines 125-132):
the same two formulas are written through boolean masks, elementwise. -/
def MU_c_stitch_vec (cvec : List ℝ) (sigma : ℝ) : List ℝ :=
  cvec.map fun c =>
    if c < eps_c then 2 * muB2 sigma * c + muB1 sigma else c ^ (-sigma)

/-- Elliptical marginal disutility of labor (the interior branch of
`MDU_n_stitch`, households.py lines 264-267; also `MDU_n` of
Ch4SS_inclass.py lines 72-76). -/
def mduEllip (l_tilde b_ellip upsilon n : ℝ) : ℝ :=
  b_ellip / l_tilde * (n / l_tilde) ^ (upsilon - 1) *
    (1 - (n / l_tilde) ^ upsilon) ^ ((1 - upsilon) / upsilon)

/-- Quadratic-continuation slope coefficient of the stitched marginal
disutility, written at a generic stitch point `x` (households.py
lines 269-274 with `x = eps_low`, lines 281-286 with `x = eps_high`). -/
def mduCoef2 (l_tilde b_ellip upsilon x : ℝ) : ℝ :=
  0.5 * b_ellip * l_tilde ^ (-upsilon) * (upsilon - 1) *
    x ^ (upsilon - 2) *
    (1 - (x / l_tilde) ^ upsilon) ^ ((1 - upsilon) / upsilon) *
    (1 + (x / l_tilde) ^ upsilon *
      (1 - (x / l_tilde) ^ upsilon) ^ (-(1 : ℝ)))

/-- Quadratic-continuation intercept coefficient at a generic stitch
point `x` (households.py lines 275-278, 287-290). -/
def mduCoef1 (l_tilde b_ellip upsilon x : ℝ) : ℝ :=
  b_ellip / l_tilde * (x / l_tilde) ^ (upsilon - 1) *
    (1 - (x / l_tilde) ^ upsilon) ^ ((1 - upsilon) / upsilon) -
    2 * mduCoef2 l_tilde b_ellip upsilon x * x

/-- `b2` of `MDU_n_stitch` (households.py lines 269-274, 304-309). -/
def mduB2 (l_tilde b_ellip upsilon : ℝ) : ℝ :=
  mduCoef2 l_tilde b_ellip upsilon eps_low

/-- `b1` of `MDU_n_stitch` (households.py lines 275-278, 310-313). -/
def mduB1 (l_tilde b_ellip upsilon : ℝ) : ℝ :=
  mduCoef1 l_tilde b_ellip upsilon eps_low

/-- `d2` of `MDU_n_stitch` (households.py lines 281-286, 315-320). -/
def mduD2 (l_tilde b_ellip upsilon : ℝ) : ℝ :=
  mduCoef2 l_tilde b_ellip upsilon (eps_high l_tilde)

/-- `d1` of `MDU_n_stitch` (households.py lines 287-290, 321-324). -/
def mduD1 (l_tilde b_ellip upsilon : ℝ) : ℝ :=
  mduCoef1 l_tilde b_ellip upsilon (eps_high l_tilde)

/-- `MDU_n_stitch`, scalar input path (households.py lines 258-291).
The source tests `n_s_uncstr` first, then `elif n_s_low`, then
`elif n_s_high`; over the reals the three conditions are exhaustive,
and when `eps_low` and `eps_high l_tilde` cross, the `elif` order means
the low branch wins for points below both. -/
def MDU_n_stitch (n l_tilde b_ellip upsilon : ℝ) : ℝ :=
  if eps_low ≤ n ∧ n ≤ eps_high l_tilde then mduEllip l_tilde b_ellip upsilon n
  else if n < eps_low then
    2 * mduB2 l_tilde b_ellip upsilon * n + mduB1 l_tilde b_ellip upsilon
  else
    2 * mduD2 l_tilde b_ellip upsilon * n + mduD1 l_tilde b_ellip upsilon

/-- `MDU_n_stitch`, 1-D vector input path (households.py lines 293-325):
the interior values are assigned on the unconstrained mask, then the low
mask is overwritten, then the high mask; so for an element on both masks
the high-branch write is the one that persists (the opposite preference
to the scalar path). -/
def MDU_n_stitch_vec (nvec : List ℝ) (l_tilde b_ellip upsilon : ℝ) : List ℝ :=
  nvec.map fun n =>
    if n > eps_high l_tilde then
      2 * mduD2 l_tilde b_ellip upsilon * n + mduD1 l_tilde b_ellip upsilon
    else if n < eps_low then
      2 * mduB2 l_tilde b_ellip upsilon * n + mduB1 l_tilde b_ellip upsilon
    else mduEllip l_tilde b_ellip upsilon n

/-! ## Checked (error-signalling) semantics for the stitched primitives

Python raises `ZeroDivisionError` on `0.0 ** y` with `y < 0`, and float
powers of a negative base leave the reals.  `rpowChk` refuses exactly
those evaluations; the checked copies of the stitched functions thread
it through every `**` of the source expressions, so `none` models "the
function raised or produced a non-finite value". -/

/-- Power evaluation that signals on a nonpositive-base error case. -/
def rpowChk (x y : ℝ) : Option ℝ :=
  if x < 0 ∨ (x = 0 ∧ y < 0) then none else some (x ^ y)

/-- Checked scalar `MU_c_stitch`. -/
def MU_c_stitch_chk (c sigma : ℝ) : Option ℝ :=
  if c < eps_c then do
    let t1 ← rpowChk eps_c (-sigma - 1)
    let b2 := -sigma * t1 / 2
    let t2 ← rpowChk eps_c (-sigma)
    let b1 := t2 - 2 * b2 * eps_c
    pure (2 * b2 * c + b1)
  else rpowChk c (-sigma)

/-- Checked vector `MU_c_stitch` (the source vector path computes the
quadratic coefficients unconditionally). -/
def MU_c_stitch_vec_chk (cvec : List ℝ) (sigma : ℝ) : Option (List ℝ) := do
  let t1 ← rpowChk eps_c (-sigma - 1)
  let b2 := -sigma * t1 / 2
  let t2 ← rpowChk eps_c (-sigma)
  let b1 := t2 - 2 * b2 * eps_c
  cvec.mapM fun c =>
    if c < eps_c then pure (2 * b2 * c + b1) else rpowChk c (-sigma)

/-- Checked quadratic slope coefficient at stitch point `x`. -/
def mduCoef2Chk (l_tilde b_ellip upsilon x : ℝ) : Option ℝ := do
  let t1 ← rpowChk l_tilde (-upsilon)
  let t2 ← rpowChk x (upsilon - 2)
  let t3 ← rpowChk (x / l_tilde) upsilon
  let t4 ← rpowChk (1 - t3) ((1 - upsilon) / upsilon)
  let t5 ← rpowChk (1 - t3) (-(1 : ℝ))
  pure (0.5 * b_ellip * t1 * (upsilon - 1) * t2 * t4 * (1 + t3 * t5))

/-- Checked quadratic intercept coefficient at stitch point `x`. -/
def mduCoef1Chk (l_tilde b_ellip upsilon x : ℝ) : Option ℝ := do
  let c2 ← mduCoef2Chk l_tilde b_ellip upsilon x
  let t6 ← rpowChk (x / l_tilde) (upsilon - 1)
  let t3 ← rpowChk (x / l_tilde) upsilon
  let t4 ← rpowChk (1 - t3) ((1 - upsilon) / upsilon)
  pure (b_ellip / l_tilde * t6 * t4 - 2 * c2 * x)

/-- Checked elliptical interior branch. -/
def mduEllipChk (l_tilde b_ellip upsilon n : ℝ) : Option ℝ := do
  let t1 ← rpowChk (n / l_tilde) (upsilon - 1)
  let t2 ← rpowChk (n / l_tilde) upsilon
  let t3 ← rpowChk (1 - t2) ((1 - upsilon) / upsilon)
  pure (b_ellip / l_tilde * t1 * t3)

/-- Checked scalar `MDU_n_stitch`. -/
def MDU_n_stitch_chk (n l_tilde b_ellip upsilon : ℝ) : Option ℝ :=
  if eps_low ≤ n ∧ n ≤ eps_high l_tilde then
    mduEllipChk l_tilde b_ellip upsilon n
  else if n < eps_low then do
    let b2 ← mduCoef2Chk l_tilde b_ellip upsilon eps_low
    let b1 ← mduCoef1Chk l_tilde b_ellip upsilon eps_low
    pure (2 * b2 * n + b1)
  else do
    let d2 ← mduCoef2Chk l_tilde b_ellip upsilon (eps_high l_tilde)
    let d1 ← mduCoef1Chk l_tilde b_ellip upsilon (eps_high l_tilde)
    pure (2 * d2 * n + d1)

/-- Checked vector `MDU_n_stitch` (the source vector path computes all
four stitching coefficients unconditionally, then assigns the three
masks in the order interior, low, high). -/
def MDU_n_stitch_vec_chk (nvec : List ℝ) (l_tilde b_ellip upsilon : ℝ) :
    Option (List ℝ) := do
  let b2 ← mduCoef2Chk l_tilde b_ellip upsilon eps_low
  let b1 ← mduCoef1Chk l_tilde b_ellip upsilon eps_low
  let d2 ← mduCoef2Chk l_tilde b_ellip upsilon (eps_high l_tilde)
  let d1 ← mduCoef1Chk l_tilde b_ellip upsilon (eps_high l_tilde)
  nvec.mapM fun n =>
    if n > eps_high l_tilde then pure (2 * d2 * n + d1)
    else if n < eps_low then pure (2 * b2 * n + b1)
    else mduEllipChk l_tilde b_ellip upsilon n

/-! ## Within-period budget mapping (households.py lines 34-68) -/

/-- `get_cons`: consumption implied by the period budget constraint. -/
def get_cons (r w b b_sp1 n e : ℝ) : ℝ := (1 + r) * b + w * n * e - b_sp1

/-- `get_cons` on equal-length vectors (numpy broadcasting of line 66). -/
def get_cons_vec (r w b b_sp1 n e : List ℝ) : List ℝ :=
  zip6R (fun r w b b_sp1 n e => (1 + r) * b + w * n * e - b_sp1)
    r w b b_sp1 n e

/-! ## Euler residual functions (households.py lines 389-504) -/

/-- `get_n_errors` in the 9-argument (consumption given) form, all-vector
broadcast (households.py lines 450-458): `w*e*mu_c - chi_n*mdu_n` or its
percent-deviation form, elementwise. -/
def get_n_errors_vec (nvec w e chi c : List ℝ)
    (sigma l_tilde b_ellip upsilon : ℝ) (diff : Bool) : List ℝ :=
  zip5R
    (fun w e mu chi mdu =>
      if diff then w * e * mu - chi * mdu else w * e * mu / (chi * mdu) - 1)
    w e (MU_c_stitch_vec c sigma) chi
    (MDU_n_stitch_vec nvec l_tilde b_ellip upsilon)

/-- `get_b_errors` (households.py lines 495-504) with a scalar interest
rate broadcast over the adjacent-age pairs. -/
def get_b_errors (cvec : List ℝ) (r beta sigma : ℝ) (diff : Bool) : List ℝ :=
  List.zipWith
    (fun mu_c mu_cp1 =>
      if diff then beta * (1 + r) * mu_cp1 - mu_c
      else beta * (1 + r) * mu_cp1 / mu_c - 1)
    (MU_c_stitch_vec cvec.dropLast sigma) (MU_c_stitch_vec cvec.tail sigma)

/-- `get_b_errors` with a vector interest-rate path (the broadcast used
by `bn_errors`, where `r = rpath[1:p]`). -/
def get_b_errors_rvec (cvec : List ℝ) (r : List ℝ) (beta sigma : ℝ)
    (diff : Bool) : List ℝ :=
  zip3R
    (fun mu_c mu_cp1 rr =>
      if diff then beta * (1 + rr) * mu_cp1 - mu_c
      else beta * (1 + rr) * mu_cp1 / mu_c - 1)
    (MU_c_stitch_vec cvec.dropLast sigma) (MU_c_stitch_vec cvec.tail sigma) r

/-! ## Lifetime system assembler (households.py lines 507-569) -/

/-- `bn_errors`: unpack the combined `(b_{s+1}, n_s)` guess, force the
terminal savings to zero, derive consumption, and stack the savings and
labor Euler errors. -/
def bn_errors (bn_vec : List ℝ) (rpath wpath : List ℝ) (b_init : ℝ)
    (p : ℕ) (beta sigma : ℝ) (e : List ℝ) (l_tilde : ℝ) (chi_n_vec : List ℝ)
    (b_ellip upsilon : ℝ) (diff : Bool) : List ℝ :=
  let b_sp1_vec := bn_vec.take (p - 1) ++ [(0 : ℝ)]
  let n_vec := bn_vec.drop (p - 1)
  let b_s_vec := b_init :: b_sp1_vec.dropLast
  let c_vec := get_cons_vec rpath wpath b_s_vec b_sp1_vec n_vec e
  let n_errors := get_n_errors_vec n_vec wpath e chi_n_vec c_vec
    sigma l_tilde b_ellip upsilon diff
  let b_errors := get_b_errors_rvec c_vec ((rpath.drop 1).take (p - 1))
    beta sigma diff
  b_errors ++ n_errors

/-! ## Forward-simulation engine (households.py lines 572-663, 666-725) -/

/-- The argument record handed to the inner per-age labor root solve
(`n_args` of households.py lines 649-650). -/
structure NArgs where
  wpath : ℝ
  sigma : ℝ
  e : ℝ
  l_tilde : ℝ
  chi_n : ℝ
  b_ellip : ℝ
  upsilon : ℝ
  diff : Bool
  cvec : ℝ

/-- The result object of `opt.root`: the solution value `x` and the
convergence flag `success`. -/
structure RootResult where
  x : ℝ
  success : Bool

/-- The `args` tuple of `get_cnb_vecs` (households.py lines 632-633):
`(b_init, beta, sigma, e, l_tilde, b_ellip, upsilon, chi_n_vec, diff)`. -/
structure CnbArgs where
  b_init : ℝ
  beta : ℝ
  sigma : ℝ
  e : ℕ → ℝ
  l_tilde : ℝ
  b_ellip : ℝ
  upsilon : ℝ
  chi_n_vec : ℕ → ℝ
  diff : Bool

/-- The `(cvec, nvec, bvec)` arrays being filled by the loop. -/
@[ext]
structure CnbState where
  cvec : List ℝ
  nvec : List ℝ
  bvec : List ℝ

/-- Everything `get_cnb_vecs` closes over: the root solver, the initial
consumption guess, the price paths and the parameter tuple. -/
structure CnbCtx where
  solver : NArgs → RootResult
  c_init : ℝ
  rpath : ℕ → ℝ
  wpath : ℕ → ℝ
  args : CnbArgs

/-- One iteration of the `for per in range(p)` loop of `get_cnb_vecs`
(households.py lines 638-654): roll wealth and consumption forward from
the previous entries, then solve the static labor condition at this age
and record `result_n.x` (the convergence flag is not consulted). -/
def cnbStep (k : CnbCtx) (st : CnbState) (per : ℕ) : CnbState :=
  let b := if per = 0 then k.args.b_init else
    (1 + k.rpath (per - 1)) * st.bvec.getD (per - 1) 0 +
      k.wpath (per - 1) * k.args.e (per - 1) * st.nvec.getD (per - 1) 0 -
      st.cvec.getD (per - 1) 0
  let c := if per = 0 then k.c_init else
    st.cvec.getD (per - 1) 0 *
      (k.args.beta * (1 + k.rpath per)) ^ (1 / k.args.sigma)
  let n := (k.solver
    ⟨k.wpath per, k.args.sigma, k.args.e per, k.args.l_tilde,
      k.args.chi_n_vec per, k.args.b_ellip, k.args.upsilon, k.args.diff,
      c⟩).x
  ⟨st.cvec ++ [c], st.nvec ++ [n], st.bvec ++ [b]⟩

/-- The full forward loop of `get_cnb_vecs` over ages `0, …, p-1`. -/
def cnbLoop (k : CnbCtx) (p : ℕ) : CnbState :=
  (List.range p).foldl (cnbStep k) ⟨[], [], []⟩

/-- Dynamic value passed through a Python variadic `*args` tuple. -/
inductive PyArg where
  | num (x : ℝ)
  | rvec (xs : List ℝ)
  | tup (ts : List PyArg)
  | flag (b : Bool)

/-- `get_b_errors(cvec, *args)` as actually invoked through `*args`
(households.py line 495 unpacks `(r, beta, sigma, diff) = args`): a call
supplying anything other than four positional values of those shapes
raises `ValueError`. -/
def get_b_errors_star (cvec : List ℝ) (args : List PyArg) :
    Except String (List ℝ) :=
  match args with
  | [PyArg.rvec r, PyArg.num beta, PyArg.num sigma, PyArg.flag d] =>
      Except.ok (get_b_errors_rvec cvec r beta sigma d)
  | _ => Except.error "ValueError: not enough values to unpack (expected 4)"

/-- `get_cnb_vecs` (households.py lines 632-663).  After the forward
loop it evaluates the labor residuals, then calls
`get_b_errors(cvec, rpath[1:], b_args)` with `b_args = (beta, sigma,
diff)` — two positional values where the callee unpacks four — and then
would compute the terminal residual `b_Sp1` and return the six-tuple. -/
def get_cnb_vecs (k : CnbCtx) (p : ℕ) :
    Except String (List ℝ × List ℝ × List ℝ × ℝ × List ℝ × List ℝ) :=
  let st := cnbLoop k p
  let n_errors := get_n_errors_vec st.nvec ((List.range p).map k.wpath)
    ((List.range p).map k.args.e) ((List.range p).map k.args.chi_n_vec)
    st.cvec k.args.sigma k.args.l_tilde k.args.b_ellip k.args.upsilon
    k.args.diff
  let b_Sp1 := (1 + k.rpath (p - 1)) * st.bvec.getD (p - 1) 0 +
    k.wpath (p - 1) * k.args.e (p - 1) * st.nvec.getD (p - 1) 0 -
    st.cvec.getD (p - 1) 0
  match get_b_errors_star st.cvec
    [PyArg.rvec (((List.range p).map k.rpath).drop 1),
     PyArg.tup [PyArg.num k.args.beta, PyArg.num k.args.sigma,
       PyArg.flag k.args.diff]] with
  | Except.error msg => Except.error msg
  | Except.ok b_errors =>
      Except.ok (st.cvec, st.nvec, st.bvec, b_Sp1, n_errors, b_errors)

/-- `c1_bSp1err` (households.py lines 718-725): run `get_cnb_vecs` and
return only the terminal savings residual `b_Sp1`. -/
def c1_bSp1err (k : CnbCtx) (p : ℕ) : Except String ℝ :=
  match get_cnb_vecs k p with
  | Except.ok res => Except.ok res.2.2.2.1
  | Except.error msg => Except.error msg

/-- Closed-form value of the consumption entry written by the loop of
`get_cnb_vecs` at 0-based age `s` (the Euler propagation of
households.py lines 641, 646-647). -/
def cSpec (k : CnbCtx) : ℕ → ℝ
  | 0 => k.c_init
  | s + 1 =>
      cSpec k s * (k.args.beta * (1 + k.rpath (s + 1))) ^ (1 / k.args.sigma)

/-- Closed-form value of the labor entry written by the loop: the root
solver's `x` at this age's arguments (households.py lines 648-654). -/
def nSpec (k : CnbCtx) (s : ℕ) : ℝ :=
  (k.solver
    ⟨k.wpath s, k.args.sigma, k.args.e s, k.args.l_tilde,
      k.args.chi_n_vec s, k.args.b_ellip, k.args.upsilon, k.args.diff,
      cSpec k s⟩).x

/-- Closed-form value of the wealth entry written by the loop (the
budget roll-forward of households.py lines 640, 643-645). -/
def bSpec (k : CnbCtx) : ℕ → ℝ
  | 0 => k.args.b_init
  | s + 1 =>
      (1 + k.rpath s) * bSpec k s + k.wpath s * k.args.e s * nSpec k s -
        cSpec k s

/-! ## Chapter 4 steady-state driver (Ch4SS_inclass.py) -/

/-- `MU_c` (Ch4SS_inclass.py lines 79-81): plain CRRA marginal utility. -/
def ch4_MU_c (c sigma : ℝ) : ℝ := c ^ (-sigma)

/-- `MDU_n` (Ch4SS_inclass.py lines 72-76): elliptical marginal
disutility, no stitching. -/
def ch4_MDU_n (n l_tilde b_ellip upsilon : ℝ) : ℝ :=
  b_ellip / l_tilde * (n / l_tilde) ^ (upsilon - 1) *
    (1 - (n / l_tilde) ^ upsilon) ^ ((1 - upsilon) / upsilon)

/-- `get_c` (Ch4SS_inclass.py lines 65-69): consumption from the budget
constraint with a zero prepended to and appended to the savings vector. -/
def ch4_get_c (nvec bvec : List ℝ) (r w : ℝ) : List ℝ :=
  zip3R (fun b_s b_sp1 n => (1 + r) * b_s + w * n - b_sp1)
    ((0 : ℝ) :: bvec) (bvec ++ [(0 : ℝ)]) nvec

/-- `get_n_errors` (Ch4SS_inclass.py lines 84-90). -/
def ch4_get_n_errors (nvec bvec : List ℝ) (r w sigma : ℝ)
    (chi_n_vec : List ℝ) (l_tilde b_ellip upsilon : ℝ) : List ℝ :=
  zip3R
    (fun n c chi =>
      w * ch4_MU_c c sigma - chi * ch4_MDU_n n l_tilde b_ellip upsilon)
    nvec (ch4_get_c nvec bvec r w) chi_n_vec

/-- `get_b_errors` (Ch4SS_inclass.py lines 93-101): note the residual is
`MU_c(c_s) - beta*(1+r)*MU_c(c_{s+1})`, and there is no `diff` mode. -/
def ch4_get_b_errors (nvec bvec : List ℝ) (r w beta sigma : ℝ) : List ℝ :=
  List.zipWith
    (fun c_s c_sp1 =>
      ch4_MU_c c_s sigma - beta * (1 + r) * ch4_MU_c c_sp1 sigma)
    (ch4_get_c nvec bvec r w).dropLast (ch4_get_c nvec bvec r w).tail

/-- `euler_system` (Ch4SS_inclass.py lines 104-113): split the stacked
guess into labor and savings, and append the labor errors followed by
the savings errors. -/
def ch4_euler_system (nbvec : List ℝ) (r w beta sigma : ℝ)
    (chi_n_vec : List ℝ) (l_tilde b_ellip upsilon : ℝ) (S : ℕ) : List ℝ :=
  ch4_get_n_errors (nbvec.take S) (nbvec.drop S) r w sigma chi_n_vec
      l_tilde b_ellip upsilon ++
    ch4_get_b_errors (nbvec.take S) (nbvec.drop S) r w beta sigma

/-- The reporting line `b_errors_ss = results.fun[:S]`
(Ch4SS_inclass.py line 127). -/
def ch4_report_b_errors (resFun : List ℝ) (S : ℕ) : List ℝ := resFun.take S

/-- The reporting line `n_errors_ss = results.fun[:S]`
(Ch4SS_inclass.py line 126). -/
def ch4_report_n_errors (resFun : List ℝ) (S : ℕ) : List ℝ := resFun.take S

/-! ## List lemmas -/

theorem getD_tail_eq (xs : List ℝ) (i : ℕ) (d : ℝ) :
    xs.tail.getD i d = xs.getD (i + 1) d := by
  cases xs <;> simp [List.getD]

theorem zipWith_dropLast_tail (f : ℝ → ℝ → ℝ) :
    ∀ xs : List ℝ, List.zipWith f xs.dropLast xs.tail =
      List.zipWith f xs xs.tail
  | [] => rfl
  | [a] => rfl
  | a :: b :: t => by
      have ih := zipWith_dropLast_tail f (b :: t)
      simp only [List.dropLast, List.tail, List.zipWith] at ih ⊢
      exact congrArg (f a b :: ·) ih

theorem getD_zipWith_eq (f : ℝ → ℝ → ℝ) (xs ys : List ℝ) (i : ℕ) (d : ℝ)
    (hx : i < xs.length) (hy : i < ys.length) :
    (List.zipWith f xs ys).getD i d = f (xs.getD i d) (ys.getD i d) := by
  rw [List.getD_eq_getElem _ _ (by simp [List.length_zipWith]; omega),
    List.getD_eq_getElem _ _ hx, List.getD_eq_getElem _ _ hy]
  exact List.getElem_zipWith

theorem getD_map_eq (f : ℝ → ℝ) (xs : List ℝ) (i : ℕ) (d : ℝ)
    (h : i < xs.length) :
    (xs.map f).getD i d = f (xs.getD i d) := by
  rw [List.getD_eq_getElem _ _ (by simpa using h), List.getD_eq_getElem _ _ h]
  simp

theorem zip3R_length (f : ℝ → ℝ → ℝ → ℝ) :
    ∀ (xs ys zs : List ℝ),
      (zip3R f xs ys zs).length = min xs.length (min ys.length zs.length)
  | [], _, _ => by cases ‹List ℝ› <;> simp [zip3R]
  | _ :: _, [], _ => by simp [zip3R]
  | _ :: _, _ :: _, [] => by simp [zip3R]
  | a :: as, b :: bs, c :: cs => by
      simp [zip3R, zip3R_length f as bs cs]; omega

theorem getD_zip3R_eq (f : ℝ → ℝ → ℝ → ℝ) :
    ∀ (xs ys zs : List ℝ) (i : ℕ) (d : ℝ), i < xs.length → i < ys.length →
      i < zs.length →
      (zip3R f xs ys zs).getD i d = f (xs.getD i d) (ys.getD i d) (zs.getD i d)
  | a :: as, b :: bs, c :: cs, 0, d, _, _, _ => by simp [zip3R, List.getD]
  | a :: as, b :: bs, c :: cs, i + 1, d, hx, hy, hz => by
      simpa [zip3R, List.getD] using
        getD_zip3R_eq f as bs cs i d (by simpa using hx) (by simpa using hy)
          (by simpa using hz)

theorem zip5R_length_eq (f : ℝ → ℝ → ℝ → ℝ → ℝ → ℝ) :
    ∀ (as bs cs ds es : List ℝ) (n : ℕ), as.length = n → bs.length = n →
      cs.length = n → ds.length = n → es.length = n →
      (zip5R f as bs cs ds es).length = n
  | [], [], [], [], [], 0, _, _, _, _, _ => rfl
  | a :: as, b :: bs, c :: cs, d :: ds, e :: es, n + 1,
      ha, hb, hc, hd, he => by
      simp only [zip5R, List.length_cons]
      rw [zip5R_length_eq f as bs cs ds es n (by simpa using ha)
        (by simpa using hb) (by simpa using hc) (by simpa using hd)
        (by simpa using he)]
  | [], bs, cs, ds, es, n + 1, ha, _, _, _, _ => by simp at ha
  | a :: as, [], cs, ds, es, n + 1, _, hb, _, _, _ => by simp at hb
  | a :: as, b :: bs, [], ds, es, n + 1, _, _, hc, _, _ => by simp at hc
  | a :: as, b :: bs, c :: cs, [], es, n + 1, _, _, _, hd, _ => by simp at hd
  | a :: as, b :: bs, c :: cs, d :: ds, [], n + 1, _, _, _, _, he => by
      simp at he
  | [], _, _, _, _, 0, _, _, _, _, _ => rfl
  | a :: as, _, _, _, _, 0, ha, _, _, _, _ => by simp at ha

theorem zip6R_length_eq (f : ℝ → ℝ → ℝ → ℝ → ℝ → ℝ → ℝ) :
    ∀ (as bs cs ds es gs : List ℝ) (n : ℕ), as.length = n →
      bs.length = n → cs.length = n → ds.length = n → es.length = n →
      gs.length = n → (zip6R f as bs cs ds es gs).length = n
  | [], [], [], [], [], [], 0, _, _, _, _, _, _ => rfl
  | a :: as, b :: bs, c :: cs, d :: ds, e :: es, g :: gs, n + 1,
      ha, hb, hc, hd, he, hg => by
      simp only [zip6R, List.length_cons]
      rw [zip6R_length_eq f as bs cs ds es gs n (by simpa using ha)
        (by simpa using hb) (by simpa using hc) (by simpa using hd)
        (by simpa using he) (by simpa using hg)]
  | [], bs, cs, ds, es, gs, n + 1, ha, _, _, _, _, _ => by simp at ha
  | a :: as, [], cs, ds, es, gs, n + 1, _, hb, _, _, _, _ => by simp at hb
  | a :: as, b :: bs, [], ds, es, gs, n + 1, _, _, hc, _, _, _ => by
      simp at hc
  | a :: as, b :: bs, c :: cs, [], es, gs, n + 1, _, _, _, hd, _, _ => by
      simp at hd
  | a :: as, b :: bs, c :: cs, d :: ds, [], gs, n + 1, _, _, _, _, he, _ => by
      simp at he
  | a :: as, b :: bs, c :: cs, d :: ds, e :: es, [], n + 1,
      _, _, _, _, _, hg => by simp at hg
  | [], _, _, _, _, _, 0, _, _, _, _, _, _ => rfl
  | a :: as, _, _, _, _, _, 0, ha, _, _, _, _, _ => by simp at ha

theorem map_dropLast_eq (f : ℝ → ℝ) :
    ∀ xs : List ℝ, xs.dropLast.map f = (xs.map f).dropLast
  | [] => rfl
  | [a] => rfl
  | a :: b :: t => by
      have ih := map_dropLast_eq f (b :: t)
      simp only [List.dropLast, List.map] at ih ⊢
      exact congrArg (f a :: ·) ih

theorem map_tail_eq (f : ℝ → ℝ) (xs : List ℝ) :
    xs.tail.map f = (xs.map f).tail := by
  cases xs <;> simp

/-! ## C9: budget identity round-trip -/

/-- C9: for all real inputs, computing consumption through `get_cons` and
re-deriving next-period savings from the same budget identity,
`(1 + r) * wealthNow + w * labor * productivity - c`, returns the
original `wealthNext` exactly. -/
theorem c9_budget_roundtrip (r w b b_sp1 n e : ℝ) :
    (1 + r) * b + w * n * e - get_cons r w b b_sp1 n e = b_sp1 := by
  unfold get_cons; ring

/-! ## C10: scalar and vector paths compute the same function -/

/-- C10: the scalar code path of each stitched primitive agrees with the
single entry of the vector code path on the one-element vector, for
every real input; for `MDU_n_stitch` this is stated for parameter
bundles whose stitching breakpoints are ordered
(`eps_low ≤ eps_high l_tilde`, i.e. `0.000002 ≤ l_tilde`), which is the
regime in which the two branch orders coincide. -/
theorem c10_scalar_vector_agree (x sigma l_tilde b_ellip upsilon : ℝ)
    (hord : (0.000002 : ℝ) ≤ l_tilde) :
    MU_c_stitch x sigma = (MU_c_stitch_vec [x] sigma).getD 0 0 ∧
    MDU_n_stitch x l_tilde b_ellip upsilon =
      (MDU_n_stitch_vec [x] l_tilde b_ellip upsilon).getD 0 0 := by
  have hle : eps_low ≤ eps_high l_tilde := by
    simp only [eps_low, eps_high]
    norm_num at hord ⊢
    linarith
  constructor
  · simp [MU_c_stitch, MU_c_stitch_vec]
  · by_cases hl : x < eps_low
    · have hn1 : ¬(eps_low ≤ x ∧ x ≤ eps_high l_tilde) := fun hc => by
        linarith [hc.1]
      have hn2 : ¬x > eps_high l_tilde := by simp only [gt_iff_lt]; linarith
      simp only [MDU_n_stitch, MDU_n_stitch_vec, List.map_cons, List.map_nil,
        List.getD_cons_zero, if_neg hn1, if_pos hl, if_neg hn2]
    · by_cases hh : x > eps_high l_tilde
      · have hn1 : ¬(eps_low ≤ x ∧ x ≤ eps_high l_tilde) := fun hc => by
          have := hc.2; simp only [gt_iff_lt] at hh; linarith
        simp only [MDU_n_stitch, MDU_n_stitch_vec, List.map_cons,
          List.map_nil, List.getD_cons_zero, if_neg hn1, if_neg hl,
          if_pos hh]
      · have h1 : eps_low ≤ x ∧ x ≤ eps_high l_tilde :=
          ⟨le_of_not_lt hl, le_of_not_lt hh⟩
        simp only [MDU_n_stitch, MDU_n_stitch_vec, List.map_cons,
          List.map_nil, List.getD_cons_zero, if_pos h1, if_neg hh,
          if_neg hl]

/-- Witness for C10 at a concrete input. -/
theorem c10_witness :
    (0.000002 : ℝ) ≤ 1 ∧
      (MU_c_stitch 0.5 2 = (MU_c_stitch_vec [0.5] 2).getD 0 0 ∧
        MDU_n_stitch 0.5 1 1 2 = (MDU_n_stitch_vec [0.5] 1 1 2).getD 0 0) :=
  ⟨by norm_num, c10_scalar_vector_agree 0.5 2 1 1 2 (by norm_num)⟩

/-! ## C3: savings Euler residual formulas (absolute-difference mode) -/

/-- C3 (amended): in absolute-difference mode the households.py
`get_b_errors` returns, per adjacent age pair,
`beta*(1+r)*MU_c_stitch(c_{s+1}) - MU_c_stitch(c_s)` with a residual
vector of length `p - 1`, exactly as the claim states; the Chapter 4
driver's `get_b_errors` also produces `p - 1` residuals, but returns the
negated form `MU_c(c_s) - beta*(1+r)*MU_c(c_{s+1})` (and has no `diff`
mode). -/
theorem c3_b_errors_formulas (cvec : List ℝ) (r beta sigma : ℝ)
    (nvec bvec : List ℝ) (w : ℝ) (hc : 2 ≤ cvec.length)
    (hn : 2 ≤ nvec.length) (hnb : bvec.length + 1 = nvec.length) :
    ((get_b_errors cvec r beta sigma true).length = cvec.length - 1 ∧
      ∀ s, s < cvec.length - 1 →
        (get_b_errors cvec r beta sigma true).getD s 0 =
          beta * (1 + r) * MU_c_stitch (cvec.getD (s + 1) 0) sigma -
            MU_c_stitch (cvec.getD s 0) sigma) ∧
    ((ch4_get_b_errors nvec bvec r w beta sigma).length =
        nvec.length - 1 ∧
      ∀ s, s < nvec.length - 1 →
        (ch4_get_b_errors nvec bvec r w beta sigma).getD s 0 =
          ch4_MU_c ((ch4_get_c nvec bvec r w).getD s 0) sigma -
            beta * (1 + r) *
              ch4_MU_c ((ch4_get_c nvec bvec r w).getD (s + 1) 0) sigma) := by
  have hcl : (ch4_get_c nvec bvec r w).length = nvec.length := by
    simp only [ch4_get_c, zip3R_length, List.length_cons, List.length_append,
      List.length_singleton]
    omega
  refine ⟨⟨?_, ?_⟩, ?_, ?_⟩
  · simp only [get_b_errors, MU_c_stitch_vec, List.length_zipWith,
      List.length_map, List.length_dropLast, List.length_tail]
    omega
  · intro s hs
    unfold get_b_errors MU_c_stitch_vec
    rw [map_dropLast_eq, map_tail_eq, zipWith_dropLast_tail,
      getD_zipWith_eq _ _ _ _ _ (by simp; omega) (by simp; omega),
      getD_tail_eq, getD_map_eq _ _ _ _ (by omega),
      getD_map_eq _ _ _ _ (by omega)]
    simp [MU_c_stitch]
  · rw [ch4_get_b_errors, zipWith_dropLast_tail, List.length_zipWith,
      List.length_tail, hcl]
    omega
  · intro s hs
    rw [ch4_get_b_errors, zipWith_dropLast_tail,
      getD_zipWith_eq _ _ _ _ _ (by omega) (by simp [hcl]; omega),
      getD_tail_eq]

/-- Counterexample for C3 as stated: at `nvec = [2,1]`, `bvec = [1]`,
`r = 0`, `w = 1`, `beta = 1/2`, `sigma = 1` the Chapter 4 `get_b_errors`
returns `3/4`, not the claimed `beta*(1+r)*MU_c(c_2) - MU_c(c_1) = -3/4`. -/
theorem c3_counterexample :
    (ch4_get_b_errors [2, 1] [1] 0 1 (1 / 2) 1).getD 0 0 ≠
      (1 / 2) * (1 + 0) * ch4_MU_c ((ch4_get_c [2, 1] [1] 0 1).getD 1 0) 1 -
        ch4_MU_c ((ch4_get_c [2, 1] [1] 0 1).getD 0 0) 1 := by
  norm_num [ch4_get_b_errors, ch4_get_c, ch4_MU_c, zip3R, Real.rpow_neg_one]

/-- Witness for C3 at a concrete input. -/
theorem c3_witness :
    2 ≤ ([1, 2] : List ℝ).length ∧ 2 ≤ ([1, 1] : List ℝ).length ∧
      ([0] : List ℝ).length + 1 = ([1, 1] : List ℝ).length ∧
      (((get_b_errors [1, 2] 0 1 1 true).length = 1 ∧
          ∀ s, s < 1 →
            (get_b_errors [1, 2] 0 1 1 true).getD s 0 =
              1 * (1 + 0) *
                  MU_c_stitch (([1, 2] : List ℝ).getD (s + 1) 0) 1 -
                MU_c_stitch (([1, 2] : List ℝ).getD s 0) 1) ∧
        ((ch4_get_b_errors [1, 1] [0] 0 1 1 1).length = 1 ∧
          ∀ s, s < 1 →
            (ch4_get_b_errors [1, 1] [0] 0 1 1 1).getD s 0 =
              ch4_MU_c ((ch4_get_c [1, 1] [0] 0 1).getD s 0) 1 -
                1 * (1 + 0) *
                  ch4_MU_c ((ch4_get_c [1, 1] [0] 0 1).getD (s + 1) 0) 1)) :=
  ⟨by norm_num, by norm_num, by norm_num,
    c3_b_errors_formulas [1, 2] 0 1 1 [1, 1] [0] 1 (by norm_num)
      (by norm_num) (by norm_num)⟩

/-! ## C8: lifetime system assembler -/

/-- C8: for every guess vector of length `2p - 1`, `bn_errors` forces
the last entry of the savings vector fed into the budget mapping to
zero (it is `take (p-1)` of the guess with `0.0` appended), and the
returned residual vector is the `p - 1` savings residuals concatenated
with the `p` labor residuals, total length `2p - 1`. -/
theorem c8_bn_errors_structure (bn_vec rpath wpath e chi_n_vec : List ℝ)
    (b_init beta sigma l_tilde b_ellip upsilon : ℝ) (diff : Bool) (p : ℕ)
    (hp : 1 ≤ p) (hbn : bn_vec.length = 2 * p - 1) (hr : rpath.length = p)
    (hw : wpath.length = p) (he : e.length = p)
    (hchi : chi_n_vec.length = p) :
    (bn_vec.take (p - 1) ++ [(0 : ℝ)]).getLast? = some 0 ∧
    bn_errors bn_vec rpath wpath b_init p beta sigma e l_tilde chi_n_vec
        b_ellip upsilon diff =
      get_b_errors_rvec
          (get_cons_vec rpath wpath
            (b_init :: (bn_vec.take (p - 1) ++ [(0 : ℝ)]).dropLast)
            (bn_vec.take (p - 1) ++ [(0 : ℝ)]) (bn_vec.drop (p - 1)) e)
          ((rpath.drop 1).take (p - 1)) beta sigma diff ++
        get_n_errors_vec (bn_vec.drop (p - 1)) wpath e chi_n_vec
          (get_cons_vec rpath wpath
            (b_init :: (bn_vec.take (p - 1) ++ [(0 : ℝ)]).dropLast)
            (bn_vec.take (p - 1) ++ [(0 : ℝ)]) (bn_vec.drop (p - 1)) e)
          sigma l_tilde b_ellip upsilon diff ∧
    (get_b_errors_rvec
        (get_cons_vec rpath wpath
          (b_init :: (bn_vec.take (p - 1) ++ [(0 : ℝ)]).dropLast)
          (bn_vec.take (p - 1) ++ [(0 : ℝ)]) (bn_vec.drop (p - 1)) e)
        ((rpath.drop 1).take (p - 1)) beta sigma diff).length = p - 1 ∧
    (get_n_errors_vec (bn_vec.drop (p - 1)) wpath e chi_n_vec
        (get_cons_vec rpath wpath
          (b_init :: (bn_vec.take (p - 1) ++ [(0 : ℝ)]).dropLast)
          (bn_vec.take (p - 1) ++ [(0 : ℝ)]) (bn_vec.drop (p - 1)) e)
        sigma l_tilde b_ellip upsilon diff).length = p ∧
    (bn_errors bn_vec rpath wpath b_init p beta sigma e l_tilde chi_n_vec
        b_ellip upsilon diff).length = 2 * p - 1 := by
  have hb_sp1 : (bn_vec.take (p - 1) ++ [(0 : ℝ)]).length = p := by
    simp [List.length_take]; omega
  have hbs : (b_init :: (bn_vec.take (p - 1) ++ [(0 : ℝ)]).dropLast).length
      = p := by
    simp only [List.length_cons, List.length_dropLast, hb_sp1]; omega
  have hnv : (bn_vec.drop (p - 1)).length = p := by simp [hbn]; omega
  have hcv : (get_cons_vec rpath wpath
      (b_init :: (bn_vec.take (p - 1) ++ [(0 : ℝ)]).dropLast)
      (bn_vec.take (p - 1) ++ [(0 : ℝ)]) (bn_vec.drop (p - 1)) e).length
      = p :=
    zip6R_length_eq _ _ _ _ _ _ _ p hr hw hbs hb_sp1 hnv he
  have hrsl : ((rpath.drop 1).take (p - 1)).length = p - 1 := by
    simp [hr]
  have hbe : (get_b_errors_rvec
      (get_cons_vec rpath wpath
        (b_init :: (bn_vec.take (p - 1) ++ [(0 : ℝ)]).dropLast)
        (bn_vec.take (p - 1) ++ [(0 : ℝ)]) (bn_vec.drop (p - 1)) e)
      ((rpath.drop 1).take (p - 1)) beta sigma diff).length = p - 1 := by
    rw [get_b_errors_rvec, zip3R_length]
    simp only [MU_c_stitch_vec, List.length_map, List.length_dropLast,
      List.length_tail, hcv, hrsl]
    omega
  have hne : (get_n_errors_vec (bn_vec.drop (p - 1)) wpath e chi_n_vec
      (get_cons_vec rpath wpath
        (b_init :: (bn_vec.take (p - 1) ++ [(0 : ℝ)]).dropLast)
        (bn_vec.take (p - 1) ++ [(0 : ℝ)]) (bn_vec.drop (p - 1)) e)
      sigma l_tilde b_ellip upsilon diff).length = p :=
    zip5R_length_eq _ _ _ _ _ _ p hw he
      (by simp only [MU_c_stitch_vec, List.length_map, hcv]) hchi
      (by simp only [MDU_n_stitch_vec, List.length_map, hnv])
  refine ⟨List.getLast?_concat _, rfl, hbe, hne, ?_⟩
  rw [show bn_errors bn_vec rpath wpath b_init p beta sigma e l_tilde
      chi_n_vec b_ellip upsilon diff =
      get_b_errors_rvec
          (get_cons_vec rpath wpath
            (b_init :: (bn_vec.take (p - 1) ++ [(0 : ℝ)]).dropLast)
            (bn_vec.take (p - 1) ++ [(0 : ℝ)]) (bn_vec.drop (p - 1)) e)
          ((rpath.drop 1).take (p - 1)) beta sigma diff ++
        get_n_errors_vec (bn_vec.drop (p - 1)) wpath e chi_n_vec
          (get_cons_vec rpath wpath
            (b_init :: (bn_vec.take (p - 1) ++ [(0 : ℝ)]).dropLast)
            (bn_vec.take (p - 1) ++ [(0 : ℝ)]) (bn_vec.drop (p - 1)) e)
          sigma l_tilde b_ellip upsilon diff from rfl,
    List.length_append, hbe, hne]
  omega

/-- Witness for C8 at a concrete input with `p = 1`. -/
theorem c8_witness :
    1 ≤ 1 ∧ ([3] : List ℝ).length = 2 * 1 - 1 ∧
      ([0] : List ℝ).length = 1 ∧ ([1] : List ℝ).length = 1 ∧
      (([3].take 0 ++ [(0 : ℝ)]).getLast? = some 0 ∧
        bn_errors [3] [0] [1] 2 1 1 1 [1] 1 [1] 1 2 true =
          get_b_errors_rvec
              (get_cons_vec [0] [1] (2 :: ([3].take 0 ++ [(0 : ℝ)]).dropLast)
                ([3].take 0 ++ [(0 : ℝ)]) ([3].drop 0) [1])
              (([0].drop 1).take 0) 1 1 true ++
            get_n_errors_vec ([3].drop 0) [1] [1] [1]
              (get_cons_vec [0] [1] (2 :: ([3].take 0 ++ [(0 : ℝ)]).dropLast)
                ([3].take 0 ++ [(0 : ℝ)]) ([3].drop 0) [1]) 1 1 1 2 true ∧
        (get_b_errors_rvec
            (get_cons_vec [0] [1] (2 :: ([3].take 0 ++ [(0 : ℝ)]).dropLast)
              ([3].take 0 ++ [(0 : ℝ)]) ([3].drop 0) [1])
            (([0].drop 1).take 0) 1 1 true).length = 0 ∧
        (get_n_errors_vec ([3].drop 0) [1] [1] [1]
            (get_cons_vec [0] [1] (2 :: ([3].take 0 ++ [(0 : ℝ)]).dropLast)
              ([3].take 0 ++ [(0 : ℝ)]) ([3].drop 0) [1]) 1 1 1 2
            true).length = 1 ∧
        (bn_errors [3] [0] [1] 2 1 1 1 [1] 1 [1] 1 2 true).length =
          2 * 1 - 1) :=
  ⟨le_refl 1, by norm_num, by norm_num, by norm_num,
    c8_bn_errors_structure [3] [0] [1] [1] [1] 2 1 1 1 1 2 true 1
      (le_refl 1) (by norm_num) (by norm_num) (by norm_num) (by norm_num)
      (by norm_num)⟩

/-! ## C5: totality of the stitched primitives -/

theorem rpowChk_pos {x : ℝ} (hx : 0 < x) (y : ℝ) :
    rpowChk x y = some (x ^ y) := by
  simp [rpowChk, hx.not_lt, hx.ne']

theorem mapM_eq_some_map (f : ℝ → Option ℝ) (g : ℝ → ℝ)
    (h : ∀ x, f x = some (g x)) :
    ∀ xs : List ℝ, xs.mapM f = some (xs.map g)
  | [] => rfl
  | x :: t => by
      rw [List.mapM_cons, h x, mapM_eq_some_map f g h t]; rfl

theorem one_minus_rpow_pos {t u : ℝ} (ht : 0 ≤ t) (ht1 : t < 1)
    (hu : 0 < u) : 0 < 1 - t ^ u := by
  have := Real.rpow_lt_one ht ht1 hu
  linarith

theorem mduEllipChk_eq (L B u n : ℝ) (hL : 0 < L) (hn : 0 < n)
    (hnL : n < L) (hu : 0 < u) :
    mduEllipChk L B u n = some (mduEllip L B u n) := by
  have ht : 0 < n / L := div_pos hn hL
  have hX : 0 < 1 - (n / L) ^ u :=
    one_minus_rpow_pos ht.le ((div_lt_one hL).mpr hnL) hu
  simp only [mduEllipChk, rpowChk_pos ht, rpowChk_pos hX,
    Option.bind_eq_bind, Option.some_bind, Option.pure_def, mduEllip]

theorem mduCoef2Chk_eq (L B u x : ℝ) (hL : 0 < L) (hx : 0 < x)
    (hxL : x < L) (hu : 0 < u) :
    mduCoef2Chk L B u x = some (mduCoef2 L B u x) := by
  have ht : 0 < x / L := div_pos hx hL
  have hX : 0 < 1 - (x / L) ^ u :=
    one_minus_rpow_pos ht.le ((div_lt_one hL).mpr hxL) hu
  simp only [mduCoef2Chk, rpowChk_pos hL, rpowChk_pos hx, rpowChk_pos ht,
    rpowChk_pos hX, Option.bind_eq_bind, Option.some_bind, Option.pure_def,
    mduCoef2]

theorem mduCoef1Chk_eq (L B u x : ℝ) (hL : 0 < L) (hx : 0 < x)
    (hxL : x < L) (hu : 0 < u) :
    mduCoef1Chk L B u x = some (mduCoef1 L B u x) := by
  have ht : 0 < x / L := div_pos hx hL
  have hX : 0 < 1 - (x / L) ^ u :=
    one_minus_rpow_pos ht.le ((div_lt_one hL).mpr hxL) hu
  simp only [mduCoef1Chk, mduCoef2Chk_eq L B u x hL hx hxL hu,
    rpowChk_pos ht, rpowChk_pos hX, Option.bind_eq_bind, Option.some_bind,
    Option.pure_def, mduCoef1]

/-- C5 (amended): for every parameter bundle with
`l_tilde > 0.000001` (so that both stitching breakpoints are strictly
between `0` and `l_tilde`) and `upsilon > 1`, the two stitched
primitives are total over every real scalar and every vector input: the
checked evaluators, which signal exactly where Python float
exponentiation would raise or leave the finite reals, return `some` of
the corresponding unchecked value on all inputs (including non-positive
consumption and labor outside `[0, l_tilde]`). -/
theorem c5_stitched_total (l_tilde b_ellip upsilon sigma : ℝ)
    (hL : (0.000001 : ℝ) < l_tilde) (hu : 1 < upsilon) :
    (∀ c, MU_c_stitch_chk c sigma = some (MU_c_stitch c sigma)) ∧
    (∀ cvec : List ℝ,
      MU_c_stitch_vec_chk cvec sigma = some (MU_c_stitch_vec cvec sigma)) ∧
    (∀ n, MDU_n_stitch_chk n l_tilde b_ellip upsilon =
      some (MDU_n_stitch n l_tilde b_ellip upsilon)) ∧
    (∀ nvec : List ℝ,
      MDU_n_stitch_vec_chk nvec l_tilde b_ellip upsilon =
        some (MDU_n_stitch_vec nvec l_tilde b_ellip upsilon)) := by
  have heps : (0 : ℝ) < eps_c := by norm_num [eps_c]
  have hL0 : (0 : ℝ) < l_tilde := lt_trans (by norm_num) hL
  have helow : (0 : ℝ) < eps_low := by norm_num [eps_low]
  have helowL : eps_low < l_tilde := by
    simpa [eps_low] using hL
  have hehigh : (0 : ℝ) < eps_high l_tilde := by
    simp only [eps_high]; norm_num at hL ⊢; linarith
  have hehighL : eps_high l_tilde < l_tilde := by
    simp only [eps_high]; norm_num
  have hu0 : (0 : ℝ) < upsilon := lt_trans one_pos hu
  have hmu : ∀ c, MU_c_stitch_chk c sigma = some (MU_c_stitch c sigma) := by
    intro c
    unfold MU_c_stitch_chk MU_c_stitch
    split_ifs with h
    · simp only [rpowChk_pos heps, Option.bind_eq_bind, Option.some_bind,
        Option.pure_def, muB2, muB1]
    · exact rpowChk_pos (lt_of_lt_of_le heps (not_lt.mp h)) _
  refine ⟨hmu, ?_, ?_, ?_⟩
  · intro cvec
    have hgc : ∀ x : ℝ,
        (if x < eps_c then
          (pure (2 * (-sigma * eps_c ^ (-sigma - 1) / 2) * x +
            (eps_c ^ (-sigma) -
              2 * (-sigma * eps_c ^ (-sigma - 1) / 2) * eps_c)) : Option ℝ)
        else rpowChk x (-sigma)) =
          some (if x < eps_c then 2 * muB2 sigma * x + muB1 sigma
            else x ^ (-sigma)) := by
      intro x
      split_ifs with h
      · simp [muB2, muB1]
      · exact rpowChk_pos (lt_of_lt_of_le heps (not_lt.mp h)) _
    simp only [MU_c_stitch_vec_chk, rpowChk_pos heps, Option.bind_eq_bind,
      Option.some_bind]
    rw [mapM_eq_some_map _ _ hgc]
    rfl
  · intro n
    unfold MDU_n_stitch_chk MDU_n_stitch
    split_ifs with h1 h2
    · exact mduEllipChk_eq _ _ _ _ hL0 (lt_of_lt_of_le helow h1.1)
        (lt_of_le_of_lt h1.2 hehighL) hu0
    · simp only [mduCoef2Chk_eq _ _ _ _ hL0 helow helowL hu0,
        mduCoef1Chk_eq _ _ _ _ hL0 helow helowL hu0, Option.bind_eq_bind,
        Option.some_bind, Option.pure_def, mduB2, mduB1]
    · simp only [mduCoef2Chk_eq _ _ _ _ hL0 hehigh hehighL hu0,
        mduCoef1Chk_eq _ _ _ _ hL0 hehigh hehighL hu0, Option.bind_eq_bind,
        Option.some_bind, Option.pure_def, mduD2, mduD1]
  · intro nvec
    have hg : ∀ x : ℝ,
        (if x > eps_high l_tilde then
          (pure (2 * mduCoef2 l_tilde b_ellip upsilon (eps_high l_tilde) * x +
            mduCoef1 l_tilde b_ellip upsilon (eps_high l_tilde)) : Option ℝ)
        else if x < eps_low then
          pure (2 * mduCoef2 l_tilde b_ellip upsilon eps_low * x +
            mduCoef1 l_tilde b_ellip upsilon eps_low)
        else mduEllipChk l_tilde b_ellip upsilon x) =
          some (if x > eps_high l_tilde then
            2 * mduD2 l_tilde b_ellip upsilon * x +
              mduD1 l_tilde b_ellip upsilon
          else if x < eps_low then
            2 * mduB2 l_tilde b_ellip upsilon * x +
              mduB1 l_tilde b_ellip upsilon
          else mduEllip l_tilde b_ellip upsilon x) := by
      intro x
      split_ifs with h1 h2
      · simp [mduD2, mduD1]
      · simp [mduB2, mduB1]
      · exact mduEllipChk_eq _ _ _ _ hL0
          (lt_of_lt_of_le helow (not_lt.mp h2))
          (lt_of_le_of_lt (not_lt.mp h1) hehighL) hu0
    simp only [MDU_n_stitch_vec_chk,
      mduCoef2Chk_eq _ _ _ _ hL0 helow helowL hu0,
      mduCoef1Chk_eq _ _ _ _ hL0 helow helowL hu0,
      mduCoef2Chk_eq _ _ _ _ hL0 hehigh hehighL hu0,
      mduCoef1Chk_eq _ _ _ _ hL0 hehigh hehighL hu0, Option.bind_eq_bind,
      Option.some_bind]
    rw [mapM_eq_some_map _ _ hg]
    rfl

/-- Counterexample for C5 as stated: with the documented parameter domain
`l_tilde > 0`, at `l_tilde = 0.000001` the scalar `MDU_n_stitch` path
(here at labor input `0`) evaluates `0.0 ** negative` while building its
stitching coefficients, which raises in Python — the checked evaluator
returns `none`. -/
theorem c5_counterexample : MDU_n_stitch_chk 0 0.000001 1 2 = none := by
  have h1 : ¬(eps_low ≤ (0 : ℝ) ∧ (0 : ℝ) ≤ eps_high 0.000001) := by
    intro hc
    have := hc.1
    norm_num [eps_low] at this
  have h2 : (0 : ℝ) < eps_low := by norm_num [eps_low]
  have hdiv : eps_low / (0.000001 : ℝ) = 1 := by norm_num [eps_low]
  have hz : rpowChk 0 ((1 - (2 : ℝ)) / 2) = none := by
    rw [rpowChk, if_pos (Or.inr ⟨rfl, by norm_num⟩)]
  have hc2 : mduCoef2Chk 0.000001 1 2 eps_low = none := by
    simp only [mduCoef2Chk, hdiv,
      rpowChk_pos (show (0 : ℝ) < 0.000001 by norm_num),
      rpowChk_pos h2, rpowChk_pos one_pos, Real.one_rpow, sub_self, hz,
      Option.bind_eq_bind, Option.some_bind, Option.none_bind]
  unfold MDU_n_stitch_chk
  rw [if_neg h1, if_pos h2]
  simp only [hc2, Option.bind_eq_bind, Option.none_bind]

/-- Witness for C5 at a concrete parameter bundle. -/
theorem c5_witness :
    (0.000001 : ℝ) < 1 ∧ (1 : ℝ) < 2 ∧
      ((∀ c, MU_c_stitch_chk c 2 = some (MU_c_stitch c 2)) ∧
        (∀ cvec : List ℝ,
          MU_c_stitch_vec_chk cvec 2 = some (MU_c_stitch_vec cvec 2)) ∧
        (∀ n, MDU_n_stitch_chk n 1 1 2 = some (MDU_n_stitch n 1 1 2)) ∧
        (∀ nvec : List ℝ,
          MDU_n_stitch_vec_chk nvec 1 1 2 =
            some (MDU_n_stitch_vec nvec 1 1 2))) :=
  ⟨by norm_num, by norm_num,
    c5_stitched_total 1 1 2 2 (by norm_num) (by norm_num)⟩

/-! ## The forward-simulation loop: entry characterization -/

theorem cnbLoop_succ (k : CnbCtx) (p : ℕ) :
    cnbLoop k (p + 1) = cnbStep k (cnbLoop k p) p := by
  simp [cnbLoop, List.range_succ]

theorem cnbLoop_lengths (k : CnbCtx) :
    ∀ p : ℕ, (cnbLoop k p).cvec.length = p ∧
      (cnbLoop k p).nvec.length = p ∧ (cnbLoop k p).bvec.length = p
  | 0 => ⟨rfl, rfl, rfl⟩
  | p + 1 => by
      have ih := cnbLoop_lengths k p
      rw [cnbLoop_succ]
      refine ⟨?_, ?_, ?_⟩ <;> simp [cnbStep, ih.1, ih.2.1, ih.2.2]

theorem cnbLoop_getD (k : CnbCtx) :
    ∀ p s : ℕ, s < p →
      (cnbLoop k p).cvec.getD s 0 = cSpec k s ∧
      (cnbLoop k p).nvec.getD s 0 = nSpec k s ∧
      (cnbLoop k p).bvec.getD s 0 = bSpec k s
  | 0, s, h => absurd h (Nat.not_lt_zero s)
  | p + 1, s, h => by
      have hl := cnbLoop_lengths k p
      rcases Nat.lt_succ_iff_lt_or_eq.mp h with h' | rfl
      · have ih := cnbLoop_getD k p s h'
        rw [cnbLoop_succ]
        simp only [cnbStep]
        exact ⟨by rw [List.getD_append _ _ _ _ (by omega)]; exact ih.1,
          by rw [List.getD_append _ _ _ _ (by omega)]; exact ih.2.1,
          by rw [List.getD_append _ _ _ _ (by omega)]; exact ih.2.2⟩
      · rw [cnbLoop_succ]
        simp only [cnbStep]
        have hgc : ∀ (xs : List ℝ) (v : ℝ), xs.length = s →
            (xs ++ [v]).getD s 0 = v := by
          intro xs v hlen
          rw [List.getD_append_right _ _ _ _ (by omega), hlen]
          simp
        rw [hgc _ _ hl.1, hgc _ _ hl.2.1, hgc _ _ hl.2.2]
        rcases Nat.eq_zero_or_eq_succ_pred s with rfl | hs
        · simp [cSpec, nSpec, bSpec]
        · obtain ⟨q, rfl⟩ : ∃ q, s = q + 1 := ⟨s - 1, hs⟩
          have ihq := cnbLoop_getD k (q + 1) q (Nat.lt_succ_self q)
          simp only [Nat.succ_ne_zero, if_false, Nat.add_sub_cancel]
          rw [ihq.1, ihq.2.1, ihq.2.2]
          refine ⟨rfl, ?_, rfl⟩
          simp only [nSpec, cSpec]

/-! ## C7: the forward recurrences of get_cnb_vecs -/

/-- C7: in the forward loop of `get_cnb_vecs`, the age-1 entries are the
given initial wealth and consumption, and every later age satisfies the
previous age's budget identity for wealth and the closed-form Euler
propagation `c[s] = c[s-1]*(beta*(1+r[s]))^(1/sigma)` for consumption
(indices 0-based here: age 1 is index 0). -/
theorem c7_forward_recurrences (k : CnbCtx) (p s : ℕ) (hs : 1 ≤ s)
    (hsp : s < p) :
    (cnbLoop k p).cvec.getD 0 0 = k.c_init ∧
    (cnbLoop k p).bvec.getD 0 0 = k.args.b_init ∧
    (cnbLoop k p).bvec.getD s 0 =
      (1 + k.rpath (s - 1)) * (cnbLoop k p).bvec.getD (s - 1) 0 +
        k.wpath (s - 1) * k.args.e (s - 1) *
          (cnbLoop k p).nvec.getD (s - 1) 0 -
        (cnbLoop k p).cvec.getD (s - 1) 0 ∧
    (cnbLoop k p).cvec.getD s 0 =
      (cnbLoop k p).cvec.getD (s - 1) 0 *
        (k.args.beta * (1 + k.rpath s)) ^ (1 / k.args.sigma) := by
  obtain ⟨t, rfl⟩ : ∃ t, s = t + 1 := ⟨s - 1, by omega⟩
  have h0 := cnbLoop_getD k p 0 (by omega)
  have ht := cnbLoop_getD k p t (by omega)
  have ht1 := cnbLoop_getD k p (t + 1) hsp
  simp only [Nat.add_sub_cancel]
  refine ⟨h0.1, h0.2.2, ?_, ?_⟩
  · rw [ht1.2.2, ht.2.2, ht.2.1, ht.1]
    rfl
  · rw [ht1.1, ht.1]
    rfl

/-- Witness for C7 at a concrete context with `p = 2`, `s = 1`. -/
theorem c7_witness :
    1 ≤ 1 ∧ 1 < 2 ∧
      ((cnbLoop ⟨fun _ => ⟨0.5, true⟩, 1, fun _ => 0, fun _ => 1,
          ⟨0, 1, 1, fun _ => 1, 1, 1, 2, fun _ => 1, true⟩⟩ 2).cvec.getD 0 0 =
          1 ∧
        (cnbLoop ⟨fun _ => ⟨0.5, true⟩, 1, fun _ => 0, fun _ => 1,
          ⟨0, 1, 1, fun _ => 1, 1, 1, 2, fun _ => 1, true⟩⟩ 2).bvec.getD 0 0 =
          0 ∧
        (cnbLoop ⟨fun _ => ⟨0.5, true⟩, 1, fun _ => 0, fun _ => 1,
          ⟨0, 1, 1, fun _ => 1, 1, 1, 2, fun _ => 1, true⟩⟩ 2).bvec.getD 1 0 =
          (1 + 0) *
              (cnbLoop ⟨fun _ => ⟨0.5, true⟩, 1, fun _ => 0, fun _ => 1,
                ⟨0, 1, 1, fun _ => 1, 1, 1, 2, fun _ => 1, true⟩⟩
                2).bvec.getD 0 0 +
            1 * 1 *
              (cnbLoop ⟨fun _ => ⟨0.5, true⟩, 1, fun _ => 0, fun _ => 1,
                ⟨0, 1, 1, fun _ => 1, 1, 1, 2, fun _ => 1, true⟩⟩
                2).nvec.getD 0 0 -
            (cnbLoop ⟨fun _ => ⟨0.5, true⟩, 1, fun _ => 0, fun _ => 1,
              ⟨0, 1, 1, fun _ => 1, 1, 1, 2, fun _ => 1, true⟩⟩
              2).cvec.getD 0 0 ∧
        (cnbLoop ⟨fun _ => ⟨0.5, true⟩, 1, fun _ => 0, fun _ => 1,
            ⟨0, 1, 1, fun _ => 1, 1, 1, 2, fun _ => 1, true⟩⟩ 2).cvec.getD 1
            0 =
          (cnbLoop ⟨fun _ => ⟨0.5, true⟩, 1, fun _ => 0, fun _ => 1,
              ⟨0, 1, 1, fun _ => 1, 1, 1, 2, fun _ => 1, true⟩⟩
              2).cvec.getD 0 0 *
            (1 * (1 + 0)) ^ (1 / (1 : ℝ))) :=
  ⟨le_refl 1, by omega,
    c7_forward_recurrences
      ⟨fun _ => ⟨0.5, true⟩, 1, fun _ => 0, fun _ => 1,
        ⟨0, 1, 1, fun _ => 1, 1, 1, 2, fun _ => 1, true⟩⟩ 2 1 (le_refl 1)
      (by omega)⟩

/-! ## C1: non-convergence of the inner solve is not surfaced -/

/-- C1 (amended): the loop of `get_cnb_vecs` reads only `result_n.x`
from each inner root solve and never consults `result_n.success`; its
output is identical for any two solvers that agree on `x`, whatever
their convergence flags, so an unconverged labor value is used to roll
wealth and consumption forward and no failure marker exists in the
result. -/
theorem c1_solver_flag_invariance (k : CnbCtx) (s2 : NArgs → RootResult)
    (p : ℕ) (hagree : ∀ g, (k.solver g).x = (s2 g).x) :
    cnbLoop k p = cnbLoop ⟨s2, k.c_init, k.rpath, k.wpath, k.args⟩ p := by
  induction p with
  | zero => rfl
  | succ q ih =>
      rw [cnbLoop_succ, cnbLoop_succ, ih]
      simp only [cnbStep, hagree]

/-- Counterexample for C1 as stated: at a concrete input, the loop run
with a solver reporting failure returns the very same value as the loop
run with a solver reporting success — the returned result carries no
failure mark at all. -/
theorem c1_counterexample :
    cnbLoop ⟨fun _ => ⟨0.5, false⟩, 1, fun _ => 0, fun _ => 1,
        ⟨0, 1, 1, fun _ => 1, 1, 1, 2, fun _ => 1, true⟩⟩ 2 =
      cnbLoop ⟨fun _ => ⟨0.5, true⟩, 1, fun _ => 0, fun _ => 1,
        ⟨0, 1, 1, fun _ => 1, 1, 1, 2, fun _ => 1, true⟩⟩ 2 := rfl

/-- Witness for C1 at a concrete pair of solvers. -/
theorem c1_witness :
    (∀ g : NArgs,
        ((fun _ => RootResult.mk 0.3 false) g).x =
          ((fun _ => RootResult.mk 0.3 true) g).x) ∧
      cnbLoop ⟨fun _ => ⟨0.3, false⟩, 2, fun _ => 0, fun _ => 1,
          ⟨0, 1, 1, fun _ => 1, 1, 1, 2, fun _ => 1, true⟩⟩ 3 =
        cnbLoop ⟨fun _ => ⟨0.3, true⟩, 2, fun _ => 0, fun _ => 1,
          ⟨0, 1, 1, fun _ => 1, 1, 1, 2, fun _ => 1, true⟩⟩ 3 :=
  ⟨fun _ => rfl,
    c1_solver_flag_invariance
      ⟨fun _ => ⟨0.3, false⟩, 2, fun _ => 0, fun _ => 1,
        ⟨0, 1, 1, fun _ => 1, 1, 1, 2, fun _ => 1, true⟩⟩
      (fun _ => ⟨0.3, true⟩) 3 (fun _ => rfl)⟩

/-! ## C6: get_cnb_vecs raises before returning the terminal residual -/

/-- C6 (code evaluation at the failing input): every execution of
`get_cnb_vecs` reaches the call
`get_b_errors(cvec, rpath[1:], b_args)` with `b_args = (beta, sigma,
diff)`, i.e. two positional values packed into `*args` where the callee
unpacks four, so it raises `ValueError` — here at a concrete input the
model returns the error instead of the six-tuple containing `b_Sp1`,
and `c1_bSp1err` propagates the same error instead of returning the
terminal residual. -/
theorem c6_get_cnb_vecs_raises :
    get_cnb_vecs ⟨fun _ => ⟨0.5, true⟩, 1, fun _ => 0, fun _ => 1,
        ⟨0, 1, 1, fun _ => 1, 1, 1, 2, fun _ => 1, true⟩⟩ 1 =
      Except.error "ValueError: not enough values to unpack (expected 4)" ∧
    c1_bSp1err ⟨fun _ => ⟨0.5, true⟩, 1, fun _ => 0, fun _ => 1,
        ⟨0, 1, 1, fun _ => 1, 1, 1, 2, fun _ => 1, true⟩⟩ 1 =
      Except.error "ValueError: not enough values to unpack (expected 4)" :=
  ⟨rfl, rfl⟩

/-! ## C2: the reported residual vectors of the Chapter 4 driver -/

/-- C2 (code evaluation at the failing input): the Chapter 4 driver sets
`b_errors_ss = results.fun[:S]` (line 127), the labor slice, instead of
`results.fun[S:]`; at `S = 2` and solution vector `[1, 1, 1]` the
reported savings-residual vector (length 2) cannot equal the savings
components of `euler_system` at the solution (length 1). -/
theorem c2_b_errors_report_wrong :
    ch4_report_b_errors (ch4_euler_system [1, 1, 1] 0 1 1 1 [1, 1] 1 1 2 2)
        2 ≠
      (ch4_euler_system [1, 1, 1] 0 1 1 1 [1, 1] 1 1 2 2).drop 2 := by
  intro h
  have hlen := congrArg List.length h
  simp [ch4_report_b_errors, ch4_euler_system, ch4_get_n_errors,
    ch4_get_b_errors, ch4_get_c, zip3R] at hlen

/-! ## C4: C¹ continuity at the stitch points -/

theorem mduEllip_hasDerivAt (L B u x : ℝ) (hL : 0 < L) (hx : 0 < x)
    (hxL : x < L) (hu : 1 < u) :
    HasDerivAt (mduEllip L B u) (2 * mduCoef2 L B u x) x := by
  have hL0 : L ≠ 0 := ne_of_gt hL
  have hu0 : (0 : ℝ) < u := by linarith
  have hu' : u ≠ 0 := ne_of_gt hu0
  have ht : 0 < x / L := div_pos hx hL
  have ht1 : x / L < 1 := (div_lt_one hL).mpr hxL
  have hXp : 0 < 1 - (x / L) ^ u := one_minus_rpow_pos ht.le ht1 hu0
  have h1 : HasDerivAt (fun n : ℝ => n / L) (1 / L) x :=
    (hasDerivAt_id x).div_const L
  have h2 : HasDerivAt (fun n : ℝ => (n / L) ^ (u - 1))
      (1 / L * (u - 1) * (x / L) ^ (u - 1 - 1)) x :=
    h1.rpow_const (Or.inl (ne_of_gt ht))
  have h3 : HasDerivAt (fun n : ℝ => (n / L) ^ u)
      (1 / L * u * (x / L) ^ (u - 1)) x :=
    h1.rpow_const (Or.inl (ne_of_gt ht))
  have h4 : HasDerivAt (fun n : ℝ => 1 - (n / L) ^ u)
      (-(1 / L * u * (x / L) ^ (u - 1))) x := h3.const_sub 1
  have h5 : HasDerivAt
      (fun n : ℝ => (1 - (n / L) ^ u) ^ ((1 - u) / u))
      (-(1 / L * u * (x / L) ^ (u - 1)) * ((1 - u) / u) *
        (1 - (x / L) ^ u) ^ ((1 - u) / u - 1)) x :=
    h4.rpow_const (Or.inl (ne_of_gt hXp))
  have h6 := (h2.mul h5).const_mul (B / L)
  have hfun : (fun n : ℝ => B / L * ((n / L) ^ (u - 1) *
      (1 - (n / L) ^ u) ^ ((1 - u) / u))) = mduEllip L B u := by
    funext n
    rw [mduEllip]
    ring
  rw [hfun] at h6
  convert h6 using 1
  have e1 : (x / L) ^ (u - 1 - 1) = (x / L) ^ (u - 2) := by
    rw [show u - 1 - 1 = u - 2 by ring]
  have e2 : (1 - (x / L) ^ u) ^ ((1 - u) / u - 1) =
      (1 - (x / L) ^ u) ^ ((1 - u) / u) *
        (1 - (x / L) ^ u) ^ (-(1 : ℝ)) := by
    rw [show (1 - u) / u - 1 = (1 - u) / u + -(1 : ℝ) by ring,
      Real.rpow_add hXp]
  have e3 : (x / L) ^ (u - 1) * (x / L) ^ (u - 1) =
      (x / L) ^ (u - 2) * (x / L) ^ u := by
    rw [← Real.rpow_add ht, ← Real.rpow_add ht]
    congr 1
    ring
  have e4 : x ^ (u - 2) = (x / L) ^ (u - 2) * L ^ (u - 2) := by
    rw [← Real.mul_rpow (div_nonneg hx.le hL.le) hL.le,
      div_mul_cancel₀ x hL0]
  have hL2 : L ^ (-u) * L ^ (u - 2) = 1 / (L * L) := by
    rw [← Real.rpow_add hL, show -u + (u - 2) = -(2 : ℝ) by ring,
      Real.rpow_neg hL.le, show (2 : ℝ) = ((2 : ℕ) : ℝ) by norm_num,
      Real.rpow_natCast, pow_two, one_div]
  have e7 : (1 - u) / u * u = 1 - u := by field_simp
  rw [mduCoef2, e1, e2, e4]
  linear_combination
    (2 * 0.5 * B * (u - 1) * (x / L) ^ (u - 2) *
        (1 - (x / L) ^ u) ^ ((1 - u) / u) *
        (1 + (x / L) ^ u * (1 - (x / L) ^ u) ^ (-(1 : ℝ)))) * hL2 +
      (-(B * (u - 1) * (1 - (x / L) ^ u) ^ ((1 - u) / u) *
        (1 - (x / L) ^ u) ^ (-(1 : ℝ)) / (L * L))) * e3 +
      (B * (1 - (x / L) ^ u) ^ ((1 - u) / u) *
        (1 - (x / L) ^ u) ^ (-(1 : ℝ)) * (x / L) ^ (u - 1) *
        (x / L) ^ (u - 1) / (L * L)) * e7

/-- C4 (amended): for every `sigma >= 1` the quadratic branch of
`MU_c_stitch` satisfies `2*b2*eps + b1 = eps^(-sigma)` and
`2*b2 = -sigma*eps^(-sigma-1)` exactly; and for every
`(l_tilde, b_ellip, upsilon)` with `l_tilde > 0.000001` (so that both
breakpoints are interior) and `upsilon > 1`, the low and high quadratic
branches of `MDU_n_stitch` match the elliptical marginal disutility in
value and first derivative exactly at `eps_low` and `eps_high`
(C¹ continuity at every stitch point). -/
theorem c4_stitch_c1_continuity (l_tilde b_ellip upsilon : ℝ)
    (hL : (0.000001 : ℝ) < l_tilde) (hu : 1 < upsilon) :
    (∀ sigma : ℝ, 1 ≤ sigma →
      2 * muB2 sigma * eps_c + muB1 sigma = eps_c ^ (-sigma) ∧
      2 * muB2 sigma = -sigma * eps_c ^ (-sigma - 1)) ∧
    2 * mduB2 l_tilde b_ellip upsilon * eps_low +
        mduB1 l_tilde b_ellip upsilon =
      mduEllip l_tilde b_ellip upsilon eps_low ∧
    HasDerivAt (mduEllip l_tilde b_ellip upsilon)
      (2 * mduB2 l_tilde b_ellip upsilon) eps_low ∧
    2 * mduD2 l_tilde b_ellip upsilon * eps_high l_tilde +
        mduD1 l_tilde b_ellip upsilon =
      mduEllip l_tilde b_ellip upsilon (eps_high l_tilde) ∧
    HasDerivAt (mduEllip l_tilde b_ellip upsilon)
      (2 * mduD2 l_tilde b_ellip upsilon) (eps_high l_tilde) := by
  have helow : (0 : ℝ) < eps_low := by norm_num [eps_low]
  have helowL : eps_low < l_tilde := by simpa [eps_low] using hL
  have hehigh : (0 : ℝ) < eps_high l_tilde := by
    simp only [eps_high]
    norm_num at hL ⊢
    linarith
  have hehighL : eps_high l_tilde < l_tilde := by
    simp only [eps_high]
    norm_num
  refine ⟨fun sigma _ => ⟨?_, ?_⟩, ?_, ?_, ?_, ?_⟩
  · rw [muB1]
    ring
  · rw [muB2]
    ring
  · simp only [mduB1, mduB2, mduCoef1, mduEllip]
    ring
  · exact mduEllip_hasDerivAt _ _ _ _ (by linarith) helow helowL hu
  · simp only [mduD1, mduD2, mduCoef1, mduEllip]
    ring
  · exact mduEllip_hasDerivAt _ _ _ _ (by linarith) hehigh hehighL hu

/-- Counterexample for C4 as stated (quantified over every
`l_tilde > 0`): at `l_tilde = 0.000001`, `b_ellip = 1`, `upsilon = 2`
the low stitch point coincides with `l_tilde`, where the elliptical
marginal disutility blows up; it is not even continuous there, so no
quadratic branch can match its first derivative at `eps_low`. -/
theorem c4_counterexample :
    ¬(2 * mduB2 0.000001 1 2 * eps_low + mduB1 0.000001 1 2 =
        mduEllip 0.000001 1 2 eps_low ∧
      HasDerivAt (mduEllip 0.000001 1 2) (2 * mduB2 0.000001 1 2)
        eps_low ∧
      2 * mduD2 0.000001 1 2 * eps_high 0.000001 + mduD1 0.000001 1 2 =
        mduEllip 0.000001 1 2 (eps_high 0.000001) ∧
      HasDerivAt (mduEllip 0.000001 1 2) (2 * mduD2 0.000001 1 2)
        (eps_high 0.000001)) := by
  rintro ⟨-, hderiv, -, -⟩
  have hcont : ContinuousAt (mduEllip 0.000001 1 2) eps_low :=
    hderiv.continuousAt
  have hf0 : mduEllip 0.000001 1 2 eps_low = 0 := by
    rw [mduEllip, show eps_low / (0.000001 : ℝ) = 1 by norm_num [eps_low],
      Real.one_rpow, Real.one_rpow, sub_self,
      Real.zero_rpow (by norm_num : ((1 : ℝ) - 2) / 2 ≠ 0)]
    ring
  have htend : Filter.Tendsto (mduEllip 0.000001 1 2) (nhds eps_low)
      (nhds 0) := by
    have := hcont
    unfold ContinuousAt at this
    rwa [hf0] at this
  have hev : ∀ᶠ y in nhds eps_low, mduEllip 0.000001 1 2 y < 1 :=
    htend.eventually_lt_const (by norm_num : (0 : ℝ) < 1)
  rw [Metric.eventually_nhds_iff] at hev
  obtain ⟨del, hdel, hball⟩ := hev
  set m := min (del / 2) (eps_low / 2) with hm
  have hm0 : 0 < m :=
    lt_min (by linarith) (by norm_num [eps_low])
  have hmlow : m ≤ eps_low / 2 := min_le_right _ _
  have hlt := @hball (eps_low - m) (by
    rw [Real.dist_eq, show eps_low - m - eps_low = -m by ring, abs_neg,
      abs_of_pos hm0]
    exact lt_of_le_of_lt (min_le_left _ _) (by linarith))
  have hy2 : eps_low / 2 ≤ eps_low - m := by linarith
  have hy3 : eps_low - m < eps_low := by linarith
  have hy0 : 0 < eps_low - m := by
    norm_num [eps_low] at hy2 ⊢
    linarith
  have htlt : (eps_low - m) / (0.000001 : ℝ) < 1 := by
    rw [div_lt_one (by norm_num)]
    simpa [eps_low] using hy3
  have htpos : 0 < (eps_low - m) / (0.000001 : ℝ) :=
    div_pos hy0 (by norm_num)
  have hthalf : (1 : ℝ) / 2 ≤ (eps_low - m) / (0.000001 : ℝ) := by
    rw [le_div_iff₀ (by norm_num)]
    norm_num [eps_low] at hy2 ⊢
    linarith
  have hXpos : 0 < 1 - ((eps_low - m) / (0.000001 : ℝ)) ^ 2 := by
    nlinarith
  have hXle1 : 1 - ((eps_low - m) / (0.000001 : ℝ)) ^ 2 ≤ 1 := by
    nlinarith
  have hfval : mduEllip 0.000001 1 2 (eps_low - m) =
      1 / 0.000001 * ((eps_low - m) / 0.000001) *
        (1 - ((eps_low - m) / 0.000001) ^ 2) ^ ((1 - (2 : ℝ)) / 2) := by
    rw [mduEllip, show (2 : ℝ) - 1 = 1 by norm_num, Real.rpow_one,
      show (2 : ℝ) = ((2 : ℕ) : ℝ) by norm_num, Real.rpow_natCast]
  have hQ1 : (1 : ℝ) ≤
      (1 - ((eps_low - m) / (0.000001 : ℝ)) ^ 2) ^ ((1 - (2 : ℝ)) / 2) :=
    Real.one_le_rpow_of_pos_of_le_one_of_nonpos hXpos hXle1
      (by norm_num)
  have h1t : (1 : ℝ) ≤ 1 / 0.000001 * ((eps_low - m) / 0.000001) := by
    have : (1 : ℝ) / 0.000001 = 1000000 := by norm_num
    rw [this]
    nlinarith
  have hge1 : (1 : ℝ) ≤ mduEllip 0.000001 1 2 (eps_low - m) := by
    rw [hfval]
    calc (1 : ℝ) = 1 * 1 := by norm_num
    _ ≤ (1 / 0.000001 * ((eps_low - m) / 0.000001)) *
        (1 - ((eps_low - m) / (0.000001 : ℝ)) ^ 2) ^ ((1 - (2 : ℝ)) / 2) :=
      mul_le_mul h1t hQ1 zero_le_one (le_trans zero_le_one h1t)
  linarith

/-- Witness for C4 at a concrete parameter bundle. -/
theorem c4_witness :
    (0.000001 : ℝ) < 1 ∧ (1 : ℝ) < 2 ∧
      ((∀ sigma : ℝ, 1 ≤ sigma →
          2 * muB2 sigma * eps_c + muB1 sigma = eps_c ^ (-sigma) ∧
          2 * muB2 sigma = -sigma * eps_c ^ (-sigma - 1)) ∧
        2 * mduB2 1 1 2 * eps_low + mduB1 1 1 2 = mduEllip 1 1 2 eps_low ∧
        HasDerivAt (mduEllip 1 1 2) (2 * mduB2 1 1 2) eps_low ∧
        2 * mduD2 1 1 2 * eps_high 1 + mduD1 1 1 2 =
          mduEllip 1 1 2 (eps_high 1) ∧
        HasDerivAt (mduEllip 1 1 2) (2 * mduD2 1 1 2) (eps_high 1)) :=
  ⟨by norm_num, by norm_num,
    c4_stitch_c1_continuity 1 1 2 (by norm_num) (by norm_num)⟩

end
